import Mathlib

/-! Overview: shallow embedding of the `polars_schema_validate` crate (schema derivation and
two-mode DataFrame schema validation) together with the derive macro's
field-type-to-Polars-dtype mapper from `polars_schema_derive`.

The validator (`src/polars_schema_validate/src/lib.rs`) compares an expected
schema (ordered list of column name / dtype pairs produced by the derive
macro) against the observed schema of a DataFrame (an ordered name-to-dtype
map with unique keys, modelled as an association list).  The mapper
(`src/polars_schema_derive/src/lib.rs`) works on the `quote!`-rendered string
of the declared Rust type (tokens separated by single spaces), modelled here
as a `List Char`; the crate is modelled with the `chrono` feature enabled.
-/

/-- Polars `TimeUnit` (only the constructors the crate mentions matter;
`Microseconds` is the one the derive macro emits). -/
inductive TimeUnit where
  | nanoseconds
  | microseconds
  | milliseconds
deriving DecidableEq

/-- Polars `DataType`, restricted to the variants the crate can produce or
compare.  Equality is structural, as in Polars (`PartialEq`). -/
inductive DataType where
  | int8 | int16 | int32 | int64
  | uint8 | uint16 | uint32 | uint64
  | float32 | float64
  | boolean
  | string
  | date
  | time
  | datetime (unit : TimeUnit) (tz : Option String)
deriving DecidableEq

/-- Errors: `ValidationError` from `src/polars_schema_validate/src/error.rs`.
The Rust `TypeMismatch` variant stores the `Debug` rendering of the two
dtypes; the rendering is injective on the dtypes the crate produces, so the
embedding stores the `DataType` values themselves. -/
inductive ValidationError where
  | missingColumn (column_name : String)
  | typeMismatch (column_name : String) (expected_type actual_type : DataType)
  | columnCountMismatch (expected_count actual_count : Nat)
  | unexpectedColumn (column_name : String)
deriving DecidableEq

deriving instance DecidableEq for Except

/-- A schema: ordered list of (column name, dtype) pairs.  The expected
schema is `Self::schema()` (declaration order); the observed schema is the
DataFrame's `df.schema()` (insertion order, unique keys). -/
abbrev Schema := List (String × DataType)

/-- Column names of a schema, in order. -/
def schemaNames (s : Schema) : List String := s.map Prod.fst

/-- Lookup `df_schema.get(name)`: look a column name up in an observed schema
(first match, which is the unique match when keys are unique). -/
def schemaGet (o : Schema) (n : String) : Option DataType :=
  match o with
  | [] => none
  | (m, d) :: rest => if m = n then some d else schemaGet rest n

/-- Permissive mode `PolarsSchema::validate`, lib.rs lines 45-66: walk the
expected schema in order; a name absent from the observed schema yields
`MissingColumn`, a present name with unequal type yields `TypeMismatch`;
otherwise continue, and succeed after the last entry. -/
def validate (expected observed : Schema) : Except ValidationError Unit :=
  match expected with
  | [] => .ok ()
  | (name, expectedType) :: rest =>
    match schemaGet observed name with
    | none => .error (.missingColumn name)
    | some actualType =>
      if actualType ≠ expectedType then
        .error (.typeMismatch name expectedType actualType)
      else
        validate rest observed

/-- The unexpected-column scan of `validate_strict`, lib.rs lines 109-119:
iterate the observed schema in order and return the first column name not in
the set of expected names. -/
def firstUnexpected (expectedNames : List String) : Schema → Option String
  | [] => none
  | (n, _) :: rest =>
    if n ∈ expectedNames then firstUnexpected expectedNames rest else some n

/-- Strict mode `PolarsSchema::validate_strict`, lib.rs lines 79-122: first the column
count check, then the same per-column loop as `validate`, then the
unexpected-column scan. -/
def validate_strict (expected observed : Schema) : Except ValidationError Unit :=
  if observed.length ≠ expected.length then
    .error (.columnCountMismatch expected.length observed.length)
  else
    match validate expected observed with
    | .error e => .error e
    | .ok _ =>
      match firstUnexpected (schemaNames expected) observed with
      | some n => .error (.unexpectedColumn n)
      | none => .ok ()

/-- Declared Rust field types, as the derive macro can see them.  `other s`
is any other type, carried as its `quote!`-rendered character string;
`option t` is `Option<t>`; the four chrono constructors are the
path-unqualified spellings (the path-qualified spellings are reachable
through `other`). -/
inductive RustType where
  | i8 | i16 | i32 | i64
  | u8 | u16 | u32 | u64
  | f32 | f64
  | bool
  | string
  | strRef
  | naiveDate
  | naiveDateTime
  | naiveTime
  | dateTimeUtc
  | option (inner : RustType)
  | other (s : List Char)
deriving DecidableEq

/-- Rendering `quote!(#ty).to_string()`: the token-stream rendering of a type, with
single spaces between tokens.  `Option<T>` renders as `"Option < " ++ T ++ " >"`
(written below in a shape convenient for splitting at the spaces). -/
def typeChars : RustType → List Char
  | .i8 => ['i', '8']
  | .i16 => ['i', '1', '6']
  | .i32 => ['i', '3', '2']
  | .i64 => ['i', '6', '4']
  | .u8 => ['u', '8']
  | .u16 => ['u', '1', '6']
  | .u32 => ['u', '3', '2']
  | .u64 => ['u', '6', '4']
  | .f32 => ['f', '3', '2']
  | .f64 => ['f', '6', '4']
  | .bool => ['b', 'o', 'o', 'l']
  | .string => ['S', 't', 'r', 'i', 'n', 'g']
  | .strRef => ['&', ' ', 's', 't', 'r']
  | .naiveDate => ['N', 'a', 'i', 'v', 'e', 'D', 'a', 't', 'e']
  | .naiveDateTime => ['N', 'a', 'i', 'v', 'e', 'D', 'a', 't', 'e', 'T', 'i', 'm', 'e']
  | .naiveTime => ['N', 'a', 'i', 'v', 'e', 'T', 'i', 'm', 'e']
  | .dateTimeUtc =>
      ['D', 'a', 't', 'e', 'T', 'i', 'm', 'e', ' ', '<', ' ', 'U', 't', 'c', ' ', '>']
  | .option t =>
      ['O', 'p', 't', 'i', 'o', 'n'] ++ ' ' :: (['<'] ++ ' ' :: (typeChars t ++ ' ' :: ['>']))
  | .other s => s

/-- The exact-string arms of `type_to_polars_dtype` (derive lib.rs lines
44-71), chrono feature enabled: primitive numerics, `bool`, the text types,
and the three `Naive*` chrono types with both spellings each. -/
def exactLookup (s : List Char) : Option DataType :=
  if s = ['i', '8'] then some .int8
  else if s = ['i', '1', '6'] then some .int16
  else if s = ['i', '3', '2'] then some .int32
  else if s = ['i', '6', '4'] then some .int64
  else if s = ['u', '8'] then some .uint8
  else if s = ['u', '1', '6'] then some .uint16
  else if s = ['u', '3', '2'] then some .uint32
  else if s = ['u', '6', '4'] then some .uint64
  else if s = ['f', '3', '2'] then some .float32
  else if s = ['f', '6', '4'] then some .float64
  else if s = ['b', 'o', 'o', 'l'] then some .boolean
  else if s = ['S', 't', 'r', 'i', 'n', 'g'] then some .string
  else if s = ['&', ' ', 's', 't', 'r'] then some .string
  else if s = ['&', 's', 't', 'r'] then some .string
  else if s = ['N', 'a', 'i', 'v', 'e', 'D', 'a', 't', 'e'] then some .date
  else if s = ['c', 'h', 'r', 'o', 'n', 'o', ' ', ':', ':', ' ',
               'N', 'a', 'i', 'v', 'e', 'D', 'a', 't', 'e'] then some .date
  else if s = ['N', 'a', 'i', 'v', 'e', 'D', 'a', 't', 'e', 'T', 'i', 'm', 'e'] then
    some (.datetime .microseconds none)
  else if s = ['c', 'h', 'r', 'o', 'n', 'o', ' ', ':', ':', ' ',
               'N', 'a', 'i', 'v', 'e', 'D', 'a', 't', 'e', 'T', 'i', 'm', 'e'] then
    some (.datetime .microseconds none)
  else if s = ['N', 'a', 'i', 'v', 'e', 'T', 'i', 'm', 'e'] then some .time
  else if s = ['c', 'h', 'r', 'o', 'n', 'o', ' ', ':', ':', ' ',
               'N', 'a', 'i', 'v', 'e', 'T', 'i', 'm', 'e'] then some .time
  else none

/-- The pattern `"DateTime"` of the guard arm. -/
def dateTimePat : List Char := ['D', 'a', 't', 'e', 'T', 'i', 'm', 'e']

/-- The pattern `"Utc"` of the guard arm. -/
def utcPat : List Char := ['U', 't', 'c']

/-- Guard arm, derive lib.rs line 73: `s.contains("DateTime") && s.contains("Utc")`. -/
def chronoUtcGuard (s : List Char) : Bool :=
  decide (dateTimePat <:+: s) && decide (utcPat <:+: s)

/-- Mapper `type_to_polars_dtype` (derive lib.rs lines 41-83), chrono feature
enabled, with the Rust arm order preserved: exact string arms first, then
the `DateTime`/`Utc` substring guard, then the `Option <` unwrapping arm
(which strips one wrapper and recurses on the inner type, exactly as the
trim-and-reparse in the source does), then the `String` fallback. -/
def type_to_polars_dtype (t : RustType) : DataType :=
  match exactLookup (typeChars t) with
  | some d => d
  | none =>
    if chronoUtcGuard (typeChars t) then
      .datetime .microseconds (some "UTC")
    else
      match t with
      | .option inner => type_to_polars_dtype inner
      | _ => .string

/-! Lemmas about `schemaGet` and the validator loops. -/

theorem schemaGet_some_mem {o : Schema} {n : String} {t : DataType}
    (h : schemaGet o n = some t) : (n, t) ∈ o := by
  induction o with
  | nil => simp [schemaGet] at h
  | cons p rest ih =>
    obtain ⟨m, d⟩ := p
    rw [schemaGet] at h
    by_cases hm : m = n
    · rw [if_pos hm] at h
      obtain rfl : d = t := by injection h
      subst hm
      exact List.mem_cons_self _ _
    · rw [if_neg hm] at h
      exact List.mem_cons_of_mem _ (ih h)

theorem schemaGet_mem_names {o : Schema} {n : String} {t : DataType}
    (h : schemaGet o n = some t) : n ∈ schemaNames o :=
  List.mem_map_of_mem Prod.fst (schemaGet_some_mem h)

theorem schemaGet_none_iff {o : Schema} {n : String} :
    schemaGet o n = none ↔ n ∉ schemaNames o := by
  induction o with
  | nil => simp [schemaGet, schemaNames]
  | cons p rest ih =>
    obtain ⟨m, d⟩ := p
    rw [schemaGet]
    by_cases hm : m = n
    · subst hm
      simp [schemaNames]
    · rw [if_neg hm, ih]
      have hnm : ¬ n = m := fun h => hm h.symm
      simp only [schemaNames, List.map_cons, List.mem_cons]
      tauto

theorem schemaGet_isSome_of_mem_names {o : Schema} {n : String}
    (h : n ∈ schemaNames o) : ∃ t, schemaGet o n = some t := by
  cases ht : schemaGet o n with
  | none => exact absurd h (schemaGet_none_iff.mp ht)
  | some t => exact ⟨t, rfl⟩

theorem mem_iff_schemaGet {o : Schema} (ho : (schemaNames o).Nodup) {n : String}
    {t : DataType} : (n, t) ∈ o ↔ schemaGet o n = some t := by
  constructor
  · intro h
    induction o with
    | nil => cases h
    | cons p rest ih =>
      obtain ⟨m, d⟩ := p
      have ho' : (schemaNames rest).Nodup := (List.nodup_cons.mp ho).2
      have hm : m ∉ schemaNames rest := (List.nodup_cons.mp ho).1
      rcases List.mem_cons.mp h with h1 | h1
      · injection h1 with hn hd
        subst hn
        subst hd
        rw [schemaGet, if_pos rfl]
      · have hne : m ≠ n := by
          intro hmn
          subst hmn
          exact hm (List.mem_map_of_mem Prod.fst h1)
        rw [schemaGet, if_neg hne]
        exact ih ho' h1
  · exact schemaGet_some_mem

theorem validate_ok_iff_get (E O : Schema) :
    validate E O = .ok () ↔ ∀ p ∈ E, schemaGet O p.1 = some p.2 := by
  induction E with
  | nil => simp [validate]
  | cons p rest ih =>
    obtain ⟨name, ety⟩ := p
    cases hg : schemaGet O name with
    | none => simp [validate, hg, List.forall_mem_cons]
    | some a =>
      by_cases ha : a = ety
      · subst ha
        simp [validate, hg, ih, List.forall_mem_cons]
      · simp [validate, hg, ha, List.forall_mem_cons]

theorem firstUnexpected_none_iff (names : List String) (O : Schema) :
    firstUnexpected names O = none ↔ ∀ n ∈ schemaNames O, n ∈ names := by
  induction O with
  | nil => simp [firstUnexpected, schemaNames]
  | cons p rest ih =>
    obtain ⟨n, d⟩ := p
    by_cases hn : n ∈ names
    · simp [firstUnexpected, hn, ih, schemaNames]
    · simp [firstUnexpected, hn, schemaNames]

theorem validate_append_ok (E₁ E₂ O : Schema)
    (h : ∀ p ∈ E₁, schemaGet O p.1 = some p.2) :
    validate (E₁ ++ E₂) O = validate E₂ O := by
  induction E₁ with
  | nil => simp
  | cons p rest ih =>
    obtain ⟨name, ety⟩ := p
    have h1 : schemaGet O name = some ety := h (name, ety) (List.mem_cons_self _ _)
    have h2 : ∀ p ∈ rest, schemaGet O p.1 = some p.2 :=
      fun p hp => h p (List.mem_cons_of_mem _ hp)
    simp [validate, h1, ih h2]

theorem validate_ne_unexpected (E O : Schema) (n : String) :
    validate E O ≠ .error (.unexpectedColumn n) := by
  induction E with
  | nil => simp [validate]
  | cons p rest ih =>
    obtain ⟨name, ety⟩ := p
    cases hg : schemaGet O name with
    | none => simp [validate, hg]
    | some a =>
      by_cases ha : a = ety
      · subst ha
        simpa [validate, hg] using ih
      · simp [validate, hg, ha]

/-! Splitting substring occurrences at a separator character.

The `quote!` rendering separates tokens by single spaces, and the substring
patterns of the guard arm (`"DateTime"`, `"Utc"`) contain no space, so an
occurrence of such a pattern never crosses a space.  These lemmas make that
precise for lists of characters. -/

theorem prefDropSep {α : Type} : ∀ (p x y : List α) (c : α), c ∉ p →
    p <+: x ++ c :: y → p <+: x := by
  intro p
  induction p with
  | nil => intro x _ _ _ _; exact ⟨x, rfl⟩
  | cons a p' ih =>
    intro x y c hc hp
    obtain ⟨t, ht⟩ := hp
    cases x with
    | nil =>
      simp only [List.nil_append, List.cons_append] at ht
      injection ht with h1 h2
      subst h1
      exact absurd (List.mem_cons_self _ _) hc
    | cons b x' =>
      simp only [List.cons_append] at ht
      injection ht with h1 h2
      subst h1
      have hc' : c ∉ p' := fun hm => hc (List.mem_cons_of_mem _ hm)
      obtain ⟨t', ht'⟩ := ih x' y c hc' ⟨t, h2⟩
      exact ⟨t', by rw [List.cons_append, ht']⟩

theorem infixAppendRight {α : Type} {p x : List α} (z : List α) (h : p <:+: x) :
    p <:+: x ++ z := by
  obtain ⟨s, t, hst⟩ := h
  exact ⟨s, t ++ z, by rw [← hst]; simp⟩

theorem infixAppendLeft {α : Type} {p y : List α} (x : List α) (h : p <:+: y) :
    p <:+: x ++ y := by
  obtain ⟨s, t, hst⟩ := h
  exact ⟨x ++ s, t, by rw [← hst]; simp⟩

theorem infixSplitSepMp {α : Type} : ∀ (x p y : List α) (c : α), c ∉ p →
    p <:+: x ++ c :: y → p <:+: x ∨ p <:+: y := by
  intro x
  induction x with
  | nil =>
    intro p y c hc h
    obtain ⟨s, t, hst⟩ := h
    cases s with
    | nil =>
      cases p with
      | nil => exact Or.inr ⟨[], y, rfl⟩
      | cons a p' =>
        simp only [List.nil_append, List.cons_append] at hst
        injection hst with h1 h2
        subst h1
        exact absurd (List.mem_cons_self _ _) hc
    | cons c' s' =>
      simp only [List.nil_append, List.cons_append] at hst
      injection hst with h1 h2
      exact Or.inr ⟨s', t, h2⟩
  | cons b x' ih =>
    intro p y c hc h
    obtain ⟨s, t, hst⟩ := h
    cases s with
    | nil =>
      simp only [List.nil_append, List.cons_append] at hst
      have hp : p <+: (b :: x') ++ c :: y := ⟨t, by simpa using hst⟩
      obtain ⟨t', ht'⟩ := prefDropSep p (b :: x') y c hc hp
      exact Or.inl ⟨[], t', by simpa using ht'⟩
    | cons b' s' =>
      simp only [List.cons_append] at hst
      injection hst with h1 h2
      subst h1
      rcases ih p y c hc ⟨s', t, h2⟩ with h | h
      · obtain ⟨s'', t'', h3⟩ := h
        exact Or.inl ⟨b' :: s'', t'', by rw [List.cons_append, List.cons_append, h3]⟩
      · exact Or.inr h

theorem infixSplitSep {α : Type} (x p y : List α) (c : α) (hc : c ∉ p) :
    p <:+: x ++ c :: y ↔ p <:+: x ∨ p <:+: y := by
  constructor
  · exact infixSplitSepMp x p y c hc
  · intro h
    rcases h with h | h
    · exact infixAppendRight (c :: y) h
    · exact infixAppendLeft x (infixAppendLeft [c] h)

/-- A space-free pattern occurs in the rendering of `Option<t>` exactly when
it occurs in the rendering of `t`, as long as it occurs in none of the
wrapper tokens `Option`, `<`, `>`. -/
theorem optionWrapPat (t : RustType) (p : List Char) (hsp : ' ' ∉ p)
    (h1 : ¬ p <:+: ['O', 'p', 't', 'i', 'o', 'n']) (h2 : ¬ p <:+: ['<'])
    (h3 : ¬ p <:+: ['>']) :
    (p <:+: typeChars (.option t) ↔ p <:+: typeChars t) := by
  simp only [typeChars]
  rw [infixSplitSep _ p _ ' ' hsp]
  rw [infixSplitSep _ p _ ' ' hsp]
  rw [infixSplitSep _ p _ ' ' hsp]
  tauto

theorem chronoUtcGuard_option (t : RustType) :
    chronoUtcGuard (typeChars (.option t)) = chronoUtcGuard (typeChars t) := by
  have hdt := optionWrapPat t dateTimePat (by decide) (by decide) (by decide) (by decide)
  have hutc := optionWrapPat t utcPat (by decide) (by decide) (by decide) (by decide)
  unfold chronoUtcGuard
  rw [decide_eq_decide.mpr hdt, decide_eq_decide.mpr hutc]


theorem neOfHead {a : Char} {s k : List Char} (h : s.head? = some a)
    (hk : k.head? ≠ some a) : s ≠ k := fun he => hk (he ▸ h)

theorem neOfMemChar {a : Char} {s k : List Char} (h : a ∈ s) (hk : a ∉ k) :
    s ≠ k := fun he => hk (he ▸ h)

/-- No exact-lookup key starts with `'O'`, so the rendering of an `Option`
type never hits an exact arm. -/
theorem exactLookup_none_of_head {s : List Char} (h : s.head? = some 'O') :
    exactLookup s = none := by
  unfold exactLookup
  rw [if_neg (neOfHead h (by decide)), if_neg (neOfHead h (by decide)),
    if_neg (neOfHead h (by decide)), if_neg (neOfHead h (by decide)),
    if_neg (neOfHead h (by decide)), if_neg (neOfHead h (by decide)),
    if_neg (neOfHead h (by decide)), if_neg (neOfHead h (by decide)),
    if_neg (neOfHead h (by decide)), if_neg (neOfHead h (by decide)),
    if_neg (neOfHead h (by decide)), if_neg (neOfHead h (by decide)),
    if_neg (neOfHead h (by decide)), if_neg (neOfHead h (by decide)),
    if_neg (neOfHead h (by decide)), if_neg (neOfHead h (by decide)),
    if_neg (neOfHead h (by decide)), if_neg (neOfHead h (by decide)),
    if_neg (neOfHead h (by decide)), if_neg (neOfHead h (by decide))]

theorem exactLookup_option_none (t : RustType) :
    exactLookup (typeChars (.option t)) = none := by
  apply exactLookup_none_of_head
  simp [typeChars]

/-- No exact-lookup key contains `'U'`, so a string satisfying the
`DateTime`/`Utc` guard never hits an exact arm. -/
theorem exactLookup_none_of_guard {s : List Char} (h : chronoUtcGuard s = true) :
    exactLookup s = none := by
  simp only [chronoUtcGuard, Bool.and_eq_true, decide_eq_true_eq] at h
  obtain ⟨x, y, hxy⟩ := h.2
  have hU : 'U' ∈ s := by
    rw [← hxy]
    simp [utcPat]
  unfold exactLookup
  rw [if_neg (neOfMemChar hU (by decide)), if_neg (neOfMemChar hU (by decide)),
    if_neg (neOfMemChar hU (by decide)), if_neg (neOfMemChar hU (by decide)),
    if_neg (neOfMemChar hU (by decide)), if_neg (neOfMemChar hU (by decide)),
    if_neg (neOfMemChar hU (by decide)), if_neg (neOfMemChar hU (by decide)),
    if_neg (neOfMemChar hU (by decide)), if_neg (neOfMemChar hU (by decide)),
    if_neg (neOfMemChar hU (by decide)), if_neg (neOfMemChar hU (by decide)),
    if_neg (neOfMemChar hU (by decide)), if_neg (neOfMemChar hU (by decide)),
    if_neg (neOfMemChar hU (by decide)), if_neg (neOfMemChar hU (by decide)),
    if_neg (neOfMemChar hU (by decide)), if_neg (neOfMemChar hU (by decide)),
    if_neg (neOfMemChar hU (by decide)), if_neg (neOfMemChar hU (by decide))]

set_option maxHeartbeats 2000000 in
/-- One-step unfolding of the mapper, usable without looping simp through the
recursive definition. -/
theorem map_unfold (t : RustType) :
    type_to_polars_dtype t =
      match exactLookup (typeChars t) with
      | some d => d
      | none =>
        if chronoUtcGuard (typeChars t) then
          DataType.datetime .microseconds (some "UTC")
        else
          match t with
          | .option inner => type_to_polars_dtype inner
          | _ => DataType.string := by
  cases t
  case other s =>
    rw [type_to_polars_dtype]
    exact fun inner h => RustType.noConfusion h
  all_goals rfl

/-- One unwrapping step of the mapper: `Option<t>` maps exactly as `t` does.
Shared by the optional-unwrapping claims. -/
theorem map_option_step (t : RustType) :
    type_to_polars_dtype (.option t) = type_to_polars_dtype t := by
  have h1 := exactLookup_option_none t
  have h2 := chronoUtcGuard_option t
  rw [map_unfold (.option t)]
  simp only [h1, h2]
  cases hg : chronoUtcGuard (typeChars t) with
  | false => simp
  | true =>
    have h3 := exactLookup_none_of_guard hg
    rw [map_unfold t]
    simp [h3, hg]

/-! Claims. -/

/-- Claim C2: `validate(E, O)` (permissive mode) returns `Ok(())` iff every
(name, type) pair of the expected schema occurs, with equal type, in the
observed schema; columns of `O` absent from `E` never cause failure (the
right-hand side does not constrain them at all). -/
theorem validate_ok_iff (E O : Schema) (hO : (schemaNames O).Nodup) :
    validate E O = .ok () ↔ ∀ n t, (n, t) ∈ E → (n, t) ∈ O := by
  rw [validate_ok_iff_get]
  constructor
  · intro h n t hnt
    exact schemaGet_some_mem (h (n, t) hnt)
  · intro h p hp
    exact (mem_iff_schemaGet hO).mp (h p.1 p.2 hp)

/-- Witness for C2 at a concrete input (an extra observed column is allowed). -/
theorem validate_ok_iff_witness :
    validate [("id", DataType.int32)] [("id", DataType.int32), ("extra", DataType.string)] =
        .ok () ↔
      ∀ n t, (n, t) ∈ ([("id", DataType.int32)] : Schema) →
        (n, t) ∈ ([("id", DataType.int32), ("extra", DataType.string)] : Schema) :=
  validate_ok_iff _ _ (by decide)

/-- Claim C3: whenever the observed column count differs from the expected
one, `validate_strict` returns `ColumnCountMismatch(expected, actual)` — no
per-column check is consulted (the hypothesis says nothing about columns). -/
theorem validate_strict_count_mismatch (E O : Schema) (h : O.length ≠ E.length) :
    validate_strict E O = .error (.columnCountMismatch E.length O.length) := by
  unfold validate_strict
  rw [if_pos h]

/-- Witness for C3 at a concrete input where every common column matches. -/
theorem validate_strict_count_mismatch_witness :
    validate_strict [("id", DataType.int32)]
        [("id", DataType.int32), ("extra", DataType.string)] =
      .error (.columnCountMismatch 1 2) :=
  validate_strict_count_mismatch _ _ (by decide)

/-- Claim C5: the schema mapper is total — every declared field type yields
some `ColumnType`; the mapping function is defined (and computes) on all of
`RustType`, including optional-wrapped, temporal and unrecognized types. -/
theorem map_type_total (t : RustType) : ∃ d : DataType, type_to_polars_dtype t = d :=
  ⟨type_to_polars_dtype t, rfl⟩

/-- Claim C7: mapping `Option<T>` yields the same `ColumnType` as mapping
`T` directly, for every inner type `T`. -/
theorem map_type_option_eq (t : RustType) :
    type_to_polars_dtype (.option t) = type_to_polars_dtype t :=
  map_option_step t

/-- Claim C6 counterexample: the mapper does unwrap past the first optional
level.  `Option<Option<i32>>` maps to `Int32`, which requires stripping both
wrappers; a depth-1 mapper would have produced the `Text` fallback for the
unrecognized inner string `Option < i32 >`. -/
theorem map_double_option_counterexample :
    type_to_polars_dtype (.option (.option .i32)) = DataType.int32 ∧
      type_to_polars_dtype (.option (.option .i32)) ≠ DataType.string := by
  constructor
  · decide
  · decide

/-- Claim C6 (amended): the optional-unwrapping recursion is not bounded to
one level — each wrapper is stripped and the mapper recurses, so a
doubly-wrapped optional maps the same as its inner type. -/
theorem map_double_option_unwraps (t : RustType) :
    type_to_polars_dtype (.option (.option t)) = type_to_polars_dtype t := by
  rw [map_option_step, map_option_step]

/-- Claim C8: a declared type that hits no exact lookup arm, does not satisfy
the `DateTime`/`Utc` guard, and is not an optional wrapper, maps to the
`Text` column type (`DataType::String`). -/
theorem map_type_fallback (t : RustType)
    (h1 : exactLookup (typeChars t) = none)
    (h2 : chronoUtcGuard (typeChars t) = false)
    (h3 : ∀ inner, t ≠ .option inner) :
    type_to_polars_dtype t = DataType.string := by
  rw [map_unfold t]
  simp only [h1, h2]
  cases t
  case option inner => exact absurd rfl (h3 inner)
  all_goals rfl

/-- Witness for C8 at a concrete unrecognized type (`Vec`). -/
theorem map_type_fallback_witness :
    type_to_polars_dtype (.other ['V', 'e', 'c']) = DataType.string :=
  map_type_fallback _ (by decide) (by decide) (fun inner h => RustType.noConfusion h)

/-- Claim C9: with the chrono extension enabled, the date-only types map to
`Date`, the naive datetime types to `Datetime(Microseconds, None)`, the
time-only types to `Time`, and the `Utc`-tagged datetime type to
`Datetime(Microseconds, Some("UTC"))`. -/
theorem map_type_temporal :
    type_to_polars_dtype .naiveDate = DataType.date ∧
    type_to_polars_dtype (.other ['c', 'h', 'r', 'o', 'n', 'o', ' ', ':', ':', ' ',
      'N', 'a', 'i', 'v', 'e', 'D', 'a', 't', 'e']) = DataType.date ∧
    type_to_polars_dtype .naiveDateTime = DataType.datetime .microseconds none ∧
    type_to_polars_dtype (.other ['c', 'h', 'r', 'o', 'n', 'o', ' ', ':', ':', ' ',
      'N', 'a', 'i', 'v', 'e', 'D', 'a', 't', 'e', 'T', 'i', 'm', 'e']) =
        DataType.datetime .microseconds none ∧
    type_to_polars_dtype .naiveTime = DataType.time ∧
    type_to_polars_dtype (.other ['c', 'h', 'r', 'o', 'n', 'o', ' ', ':', ':', ' ',
      'N', 'a', 'i', 'v', 'e', 'T', 'i', 'm', 'e']) = DataType.time ∧
    type_to_polars_dtype .dateTimeUtc = DataType.datetime .microseconds (some "UTC") := by
  decide

/-- Claim C4: in both validation modes the per-column scan walks the expected
schema in declared order and stops at the first defect.  If every entry
before position `|E₁|` passes, a missing name at that position yields
`MissingColumn` and a present name of unequal type yields `TypeMismatch`,
whatever the remaining entries `E₂` are (they are never examined); the
`Except` result carries exactly one error.  The strict-mode variants assume
the count check passes. -/
theorem validate_first_defect (E₁ E₂ O : Schema) (n : String) (t : DataType)
    (hprev : ∀ p ∈ E₁, schemaGet O p.1 = some p.2) :
    (schemaGet O n = none →
      validate (E₁ ++ (n, t) :: E₂) O = .error (.missingColumn n) ∧
      (O.length = (E₁ ++ (n, t) :: E₂).length →
        validate_strict (E₁ ++ (n, t) :: E₂) O = .error (.missingColumn n))) ∧
    (∀ a, schemaGet O n = some a → a ≠ t →
      validate (E₁ ++ (n, t) :: E₂) O = .error (.typeMismatch n t a) ∧
      (O.length = (E₁ ++ (n, t) :: E₂).length →
        validate_strict (E₁ ++ (n, t) :: E₂) O = .error (.typeMismatch n t a))) := by
  have hstep := validate_append_ok E₁ ((n, t) :: E₂) O hprev
  constructor
  · intro hnone
    have hv : validate (E₁ ++ (n, t) :: E₂) O = .error (.missingColumn n) := by
      rw [hstep]
      simp [validate, hnone]
    refine ⟨hv, fun hlen => ?_⟩
    unfold validate_strict
    rw [if_neg (by omega)]
    simp [hv]
  · intro a hsome hne
    have hv : validate (E₁ ++ (n, t) :: E₂) O = .error (.typeMismatch n t a) := by
      rw [hstep]
      simp [validate, hsome, hne]
    refine ⟨hv, fun hlen => ?_⟩
    unfold validate_strict
    rw [if_neg (by omega)]
    simp [hv]

/-- Witness for C4 at a concrete input: the first defect (missing `name`) is
reported although a later column (`age`) is also missing. -/
theorem validate_first_defect_witness :
    validate ([("id", DataType.int32)] ++ ("name", DataType.string) ::
        [("age", DataType.int32)]) [("id", DataType.int32)] =
      .error (.missingColumn "name") :=
  ((validate_first_defect [("id", DataType.int32)] [("age", DataType.int32)]
      [("id", DataType.int32)] "name" DataType.string (by decide)).1 (by decide)).1

/-- Claim C1: under the schema invariants (unique expected names, unique
observed keys) `validate_strict` succeeds exactly when the two column-name
sets coincide, the column counts agree, and every shared name carries the
same dtype on both sides. -/
theorem validate_strict_ok_iff (E O : Schema) (hE : (schemaNames E).Nodup)
    (hO : (schemaNames O).Nodup) :
    validate_strict E O = .ok () ↔
      ((schemaNames E).toFinset = (schemaNames O).toFinset ∧
       E.length = O.length ∧
       ∀ n, n ∈ schemaNames E → n ∈ schemaNames O →
         schemaGet E n = schemaGet O n) := by
  constructor
  · intro h
    unfold validate_strict at h
    by_cases hlen : O.length ≠ E.length
    · rw [if_pos hlen] at h
      cases h
    · rw [if_neg hlen] at h
      push_neg at hlen
      cases hval : validate E O with
      | error e =>
        rw [hval] at h
        simp at h
      | ok u =>
        cases u
        rw [hval] at h
        cases hun : firstUnexpected (schemaNames E) O with
        | some m =>
          rw [hun] at h
          simp at h
        | none =>
          have hget : ∀ p ∈ E, schemaGet O p.1 = some p.2 :=
            (validate_ok_iff_get E O).mp hval
          have hEsub : ∀ x ∈ schemaNames E, x ∈ schemaNames O := by
            intro x hx
            obtain ⟨p, hp, hp1⟩ := List.mem_map.mp hx
            exact hp1 ▸ schemaGet_mem_names (hget p hp)
          have hOsub : ∀ x ∈ schemaNames O, x ∈ schemaNames E :=
            (firstUnexpected_none_iff _ _).mp hun
          refine ⟨?_, hlen.symm, ?_⟩
          · ext x
            simp only [List.mem_toFinset]
            exact ⟨hEsub x, hOsub x⟩
          · intro x hxE _
            obtain ⟨t, ht⟩ := schemaGet_isSome_of_mem_names hxE
            rw [ht, hget (x, t) (schemaGet_some_mem ht)]
  · rintro ⟨hset, hlen, hshared⟩
    have hval : validate E O = .ok () := by
      rw [validate_ok_iff_get]
      intro p hp
      have h1 : schemaGet E p.1 = some p.2 := (mem_iff_schemaGet hE).mp hp
      have hnE : p.1 ∈ schemaNames E := schemaGet_mem_names h1
      have hnO : p.1 ∈ schemaNames O := by
        have hx := Finset.ext_iff.mp hset p.1
        simp only [List.mem_toFinset] at hx
        exact hx.mp hnE
      rw [← hshared p.1 hnE hnO]
      exact h1
    have hun : firstUnexpected (schemaNames E) O = none := by
      rw [firstUnexpected_none_iff]
      intro x hx
      have hx2 := Finset.ext_iff.mp hset x
      simp only [List.mem_toFinset] at hx2
      exact hx2.mpr hx
    unfold validate_strict
    rw [if_neg (by omega)]
    simp [hval, hun]

/-- Witness for C1 at a concrete input. -/
theorem validate_strict_ok_iff_witness :
    validate_strict [("id", DataType.int32)] [("id", DataType.int32)] = .ok () ↔
      ((schemaNames [("id", DataType.int32)]).toFinset =
          (schemaNames [("id", DataType.int32)]).toFinset ∧
        ([("id", DataType.int32)] : Schema).length =
          ([("id", DataType.int32)] : Schema).length ∧
        ∀ n, n ∈ schemaNames [("id", DataType.int32)] →
          n ∈ schemaNames [("id", DataType.int32)] →
          schemaGet [("id", DataType.int32)] n = schemaGet [("id", DataType.int32)] n) :=
  validate_strict_ok_iff _ _ (by decide) (by decide)

/-- Claim C10: under the schema invariants, `validate_strict` never returns
`UnexpectedColumn`: once the count check and the per-column loop pass, the
expected names already exhaust the observed names, so the unexpected-column
scan cannot fire. -/
theorem validate_strict_no_unexpected (E O : Schema) (hE : (schemaNames E).Nodup)
    (hO : (schemaNames O).Nodup) (n : String) :
    validate_strict E O ≠ .error (.unexpectedColumn n) := by
  intro h
  unfold validate_strict at h
  by_cases hlen : O.length ≠ E.length
  · rw [if_pos hlen] at h
    simp at h
  · rw [if_neg hlen] at h
    push_neg at hlen
    cases hval : validate E O with
    | error e =>
      rw [hval] at h
      simp at h
      exact validate_ne_unexpected E O n (by rw [hval, h])
    | ok u =>
      cases u
      rw [hval] at h
      cases hun : firstUnexpected (schemaNames E) O with
      | none =>
        rw [hun] at h
        simp at h
      | some m =>
        have hget : ∀ p ∈ E, schemaGet O p.1 = some p.2 :=
          (validate_ok_iff_get E O).mp hval
        have hEsub : ∀ x ∈ schemaNames E, x ∈ schemaNames O := by
          intro x hx
          obtain ⟨p, hp, hp1⟩ := List.mem_map.mp hx
          exact hp1 ▸ schemaGet_mem_names (hget p hp)
        have hsub : (schemaNames E).toFinset ⊆ (schemaNames O).toFinset := by
          intro x hx
          simp only [List.mem_toFinset] at hx ⊢
          exact hEsub x hx
        have e1 : (schemaNames E).toFinset.card = E.length := by
          rw [List.toFinset_card_of_nodup hE, schemaNames, List.length_map]
        have e2 : (schemaNames O).toFinset.card = O.length := by
          rw [List.toFinset_card_of_nodup hO, schemaNames, List.length_map]
        have hcard : (schemaNames O).toFinset.card ≤ (schemaNames E).toFinset.card := by
          omega
        have heq : (schemaNames E).toFinset = (schemaNames O).toFinset :=
          Finset.eq_of_subset_of_card_le hsub hcard
        have hOsub : ∀ x ∈ schemaNames O, x ∈ schemaNames E := by
          intro x hx
          have hx2 := Finset.ext_iff.mp heq x
          simp only [List.mem_toFinset] at hx2
          exact hx2.mpr hx
        rw [(firstUnexpected_none_iff _ _).mpr hOsub] at hun
        cases hun

/-- Witness for C10 at a concrete input. -/
theorem validate_strict_no_unexpected_witness :
    validate_strict [("id", DataType.int32)] [("id", DataType.int32)] ≠
      .error (.unexpectedColumn "ghost") :=
  validate_strict_no_unexpected _ _ (by decide) (by decide) "ghost"
